import Mathlib

/-!
Verification of the fair-value estimation engine (`src/pricing.py`).

The engine is a pure pipeline over a list of numeric price observations:
IQR outlier removal → median and trimmed mean of the cleaned set →
weighted blend (0.6 median + 0.4 trimmed mean) → confidence label
computed against the original set.  We embed the numeric computations
over `ℚ` (the source uses IEEE doubles; all constants of the source —
0.1, 0.15, 0.2, 0.25, 0.6, 0.4, 1.5 — are embedded as the exact
rationals they denote).  `np.std`'s square root is the single
non-rational operation; the source only ever *compares* the coefficient
of variation against a positive threshold, which we embed by the
equivalent comparison of squares (`volLtB`), proved equivalent to the
real-number `√variance / mean < c` formulation in `volLtB_iff_spec`.
-/

namespace Pricing

/-- Ascending sort, as `np.sort` / the sorted views used by numpy. -/
def sortList (l : List ℚ) : List ℚ := l.insertionSort (· ≤ ·)

/-- `np.mean`: sum divided by length (0 on the empty list, where numpy yields NaN;
callers in the source only apply it to non-empty lists). -/
def mean (l : List ℚ) : ℚ := l.sum / (l.length : ℚ)

/-- Population variance, the square of `np.std`: mean of squared deviations. -/
def variance (l : List ℚ) : ℚ :=
  (l.map (fun x => (x - mean l) ^ 2)).sum / (l.length : ℚ)

/-- `np.percentile(l, p)` with numpy's default linear-interpolation semantics:
with `s` the sorted data and `pos = p/100 * (n-1)`, interpolate linearly
between `s[⌊pos⌋]` and `s[⌊pos⌋+1]` (the second index is only reached with a
positive fractional weight when it is in range, matching numpy's clipping). -/
def percentile (l : List ℚ) (p : ℚ) : ℚ :=
  let s := sortList l
  let n := s.length
  let pos : ℚ := p / 100 * ((n : ℚ) - 1)
  let i : ℕ := (⌊pos⌋).toNat
  let g : ℚ := pos - (i : ℚ)
  s.getD i 0 + g * (s.getD (i + 1) (s.getD i 0) - s.getD i 0)

/-- `lower_bound = q1 - 1.5 * iqr` of `remove_outliers_iqr`. -/
def iqrLower (l : List ℚ) : ℚ :=
  percentile l 25 - 3 / 2 * (percentile l 75 - percentile l 25)

/-- `upper_bound = q3 + 1.5 * iqr` of `remove_outliers_iqr`. -/
def iqrUpper (l : List ℚ) : ℚ :=
  percentile l 75 + 3 / 2 * (percentile l 75 - percentile l 25)

/-- `remove_outliers_iqr`: keep the observations inside
`[q1 - 1.5*iqr, q3 + 1.5*iqr]`, both bounds inclusive.  numpy's boolean-mask
indexing keeps the retained elements in their original order, i.e. it is
`List.filter` on the input. -/
def remove_outliers_iqr (prices : List ℚ) : List ℚ :=
  prices.filter fun x => decide (iqrLower prices ≤ x ∧ x ≤ iqrUpper prices)

/-- `trimmed_mean` with the source's fixed default `trim_ratio = 0.1`:
sort, compute `trim_count = int(n * 0.1)` (truncation = floor for `n ≥ 0`),
fall back to the full mean when `n ≤ 2 * trim_count`, otherwise average
`prices[trim_count : n - trim_count]`. -/
def trimmed_mean (prices : List ℚ) : ℚ :=
  let s := sortList prices
  let n := s.length
  let trimCount : ℕ := (⌊(n : ℚ) * (1 / 10)⌋).toNat
  if n ≤ 2 * trimCount then mean s
  else mean ((s.drop trimCount).take (n - 2 * trimCount))

/-- `np.median`: middle element of the sorted data for odd length, average of
the two central elements for even length. -/
def medianQ (l : List ℚ) : ℚ :=
  let s := sortList l
  let n := s.length
  if n % 2 = 1 then s.getD (n / 2) 0
  else (s.getD (n / 2 - 1) 0 + s.getD (n / 2) 0) / 2

/-- The source's comparison `volatility < c` where
`volatility = np.std(l) / np.mean(l) if np.mean(l) else 0`.
Since `std = √variance` is irrational, we embed the comparison (not the
quotient) and stay in `ℚ` by comparing squares when the mean is positive;
for every threshold `c > 0` — the source only uses 0.15 and 0.25 — this
Boolean equals the real-number comparison, see `volLtB_iff_spec`. -/
def volLtB (l : List ℚ) (c : ℚ) : Bool :=
  if 0 < mean l then decide (variance l < c ^ 2 * (mean l) ^ 2)
  else if mean l = 0 then decide (0 < c)
  else true

/-- `confidence_score`: first matching rule wins.
`HIGH` needs `used ≥ 10`, volatility `< 0.15` and `outlier_ratio < 0.2`
(strict); `MEDIUM` needs `used ≥ 5` and volatility `< 0.25`; else `LOW`.
`outlier_ratio = 1 - used/total`. -/
def confidence_score (original : List ℚ) (used : ℕ) : String :=
  if 10 ≤ used ∧ volLtB original (3 / 20)
      ∧ (1 - (used : ℚ) / (original.length : ℚ)) < 1 / 5 then "HIGH"
  else if 5 ≤ used ∧ volLtB original (1 / 4) then "MEDIUM"
  else "LOW"

/-- Round-half-to-even to an integer, the semantics of Python's `round`. -/
def roundHalfEven (x : ℚ) : ℤ :=
  if x - ⌊x⌋ < 1 / 2 then ⌊x⌋
  else if 1 / 2 < x - ⌊x⌋ then ⌊x⌋ + 1
  else if ⌊x⌋ % 2 = 0 then ⌊x⌋ else ⌊x⌋ + 1

/-- Python's `round(x, 2)`: round to 2 decimal places, ties to even. -/
def round2 (x : ℚ) : ℚ := (roundHalfEven (x * 100) : ℚ) / 100

/-- The result dictionary built by `fair_value`. -/
structure FVResult where
  fair_value : ℚ
  median : ℚ
  trimmed_mean : ℚ
  data_points_used : ℕ
  confidence : String
deriving DecidableEq

/-- The two `ValueError`s `fair_value` can raise, as distinct conditions. -/
inductive FVError where
  | insufficientData
  | allOutliers
deriving DecidableEq

/-- `fair_value`: raise on fewer than 3 points, clean via IQR, raise if the
cleaned set is empty, otherwise blend `0.6 * median + 0.4 * trimmed_mean`
and assemble the rounded result record. -/
def fair_value (prices : List ℚ) : Except FVError FVResult :=
  if prices.length < 3 then .error .insufficientData
  else
    let cleaned := remove_outliers_iqr prices
    if cleaned.length = 0 then .error .allOutliers
    else
      let medianPrice := medianQ cleaned
      let trimmedAvg := trimmed_mean cleaned
      let fairPrice := 3 / 5 * medianPrice + 2 / 5 * trimmedAvg
      .ok { fair_value := round2 fairPrice
            median := round2 medianPrice
            trimmed_mean := round2 trimmedAvg
            data_points_used := cleaned.length
            confidence := confidence_score prices cleaned.length }

/-- The spec's volatility comparison, literally: `stddev(original)/mean(original)`
with `stddev = √variance` over the reals (0 when the mean is 0), compared
against the threshold `c`. -/
def volatilitySpecLt (l : List ℚ) (c : ℚ) : Prop :=
  (if mean l = 0 then (0 : ℝ)
   else Real.sqrt ((variance l : ℚ) : ℝ) / ((mean l : ℚ) : ℝ)) < (c : ℝ)

/-- The sample input of the source's `__main__` block and of the spec, §8. -/
def samplePrices : List ℚ :=
  [48000, 50000, 52000, 51000, 49500, 49000, 70000, 30000, 50500, 49800]

/-- The cleaned set the IQR cut produces on `samplePrices` (order preserved,
`70000` and `30000` removed). -/
def sampleCleaned : List ℚ :=
  [48000, 50000, 52000, 51000, 49500, 49000, 50500, 49800]

/-! Section: Basic facts about the sorting step and the statistics -/

lemma sortList_perm (l : List ℚ) : (sortList l).Perm l :=
  List.perm_insertionSort _ l

lemma sortList_sorted (l : List ℚ) : (sortList l).Sorted (· ≤ ·) :=
  List.sorted_insertionSort _ l

lemma length_sortList (l : List ℚ) : (sortList l).length = l.length :=
  (sortList_perm l).length_eq

lemma sortList_eq_of_perm {l l' : List ℚ} (h : l.Perm l') : sortList l = sortList l' :=
  List.eq_of_perm_of_sorted ((sortList_perm l).trans (h.trans (sortList_perm l').symm))
    (sortList_sorted l) (sortList_sorted l')

lemma mean_eq_of_perm {l l' : List ℚ} (h : l.Perm l') : mean l = mean l' := by
  unfold mean
  rw [h.sum_eq, h.length_eq]

lemma mean_sortList (l : List ℚ) : mean (sortList l) = mean l :=
  mean_eq_of_perm (sortList_perm l)

lemma variance_eq_of_perm {l l' : List ℚ} (h : l.Perm l') : variance l = variance l' := by
  unfold variance
  rw [mean_eq_of_perm h, h.length_eq, (h.map _).sum_eq]

lemma sortList_getD_mono (l : List ℚ) {i j : ℕ} (hij : i ≤ j)
    (hj : j < (sortList l).length) :
    (sortList l).getD i 0 ≤ (sortList l).getD j 0 := by
  rw [List.getD_eq_getElem _ _ (lt_of_le_of_lt hij hj), List.getD_eq_getElem _ _ hj]
  have h := (sortList_sorted l).rel_get_of_le
    (show (⟨i, lt_of_le_of_lt hij hj⟩ : Fin (sortList l).length) ≤ ⟨j, hj⟩ from hij)
  simpa [List.get_eq_getElem] using h

lemma mean_replicate {n : ℕ} (hn : n ≠ 0) (v : ℚ) : mean (List.replicate n v) = v := by
  unfold mean
  rw [List.sum_replicate, List.length_replicate, nsmul_eq_mul]
  field_simp

lemma getD_replicate {n i : ℕ} (hi : i < n) (v d : ℚ) :
    (List.replicate n v).getD i d = v := by
  rw [List.getD_eq_getElem _ _ (by simpa using hi)]
  exact List.getElem_replicate _ _

/-- `fair_value` unfolded once, for case analysis. -/
lemma fair_value_def (l : List ℚ) :
    fair_value l =
      if l.length < 3 then .error .insufficientData
      else if (remove_outliers_iqr l).length = 0 then .error .allOutliers
      else .ok { fair_value := round2 (3 / 5 * medianQ (remove_outliers_iqr l)
                   + 2 / 5 * trimmed_mean (remove_outliers_iqr l))
                 median := round2 (medianQ (remove_outliers_iqr l))
                 trimmed_mean := round2 (trimmed_mean (remove_outliers_iqr l))
                 data_points_used := (remove_outliers_iqr l).length
                 confidence := confidence_score l (remove_outliers_iqr l).length } := rfl

/-- Successful runs of `fair_value`, characterised. -/
lemma fair_value_ok_iff (l : List ℚ) (r : FVResult) :
    fair_value l = .ok r ↔
      3 ≤ l.length ∧ remove_outliers_iqr l ≠ [] ∧
      r = { fair_value := round2 (3 / 5 * medianQ (remove_outliers_iqr l)
              + 2 / 5 * trimmed_mean (remove_outliers_iqr l))
            median := round2 (medianQ (remove_outliers_iqr l))
            trimmed_mean := round2 (trimmed_mean (remove_outliers_iqr l))
            data_points_used := (remove_outliers_iqr l).length
            confidence := confidence_score l (remove_outliers_iqr l).length } := by
  rw [fair_value_def]
  by_cases h3 : l.length < 3
  · rw [if_pos h3]
    constructor
    · intro h
      exact Except.noConfusion h
    · rintro ⟨h, -, -⟩
      omega
  · rw [if_neg h3]
    by_cases h0 : (remove_outliers_iqr l).length = 0
    · rw [if_pos h0]
      constructor
      · intro h
        exact Except.noConfusion h
      · rintro ⟨-, hne, -⟩
        exact absurd (List.length_eq_zero.mp h0) hne
    · rw [if_neg h0]
      simp only [Except.ok.injEq]
      constructor
      · intro h
        exact ⟨by omega, fun hne => h0 (by rw [hne]; rfl), h.symm⟩
      · rintro ⟨-, -, h⟩
        exact h.symm

/-! Section: Floor arithmetic for the percentile and trim indices -/

lemma toNat_floor_natCast_div_four (m : ℕ) : (⌊((m : ℚ)) / 4⌋).toNat = m / 4 := by
  rw [Int.floor_toNat, show ((4 : ℚ)) = ((4 : ℕ) : ℚ) by norm_num,
    Nat.floor_div_nat, Nat.floor_natCast]

lemma floor_tenth (n : ℕ) : (⌊(n : ℚ) * (1 / 10)⌋).toNat = n / 10 := by
  rw [mul_one_div, Int.floor_toNat, show ((10 : ℚ)) = ((10 : ℕ) : ℚ) by norm_num,
    Nat.floor_div_nat, Nat.floor_natCast]

lemma idx25 (n : ℕ) (h : 1 ≤ n) :
    (⌊(25 : ℚ) / 100 * ((n : ℚ) - 1)⌋).toNat = (n - 1) / 4 := by
  have hc : (25 : ℚ) / 100 * ((n : ℚ) - 1) = ((n - 1 : ℕ) : ℚ) / 4 := by
    rw [Nat.cast_sub h]
    push_cast
    ring
  rw [hc, toNat_floor_natCast_div_four]

lemma idx75 (n : ℕ) (h : 1 ≤ n) :
    (⌊(75 : ℚ) / 100 * ((n : ℚ) - 1)⌋).toNat = 3 * (n - 1) / 4 := by
  have hc : (75 : ℚ) / 100 * ((n : ℚ) - 1) = ((3 * (n - 1) : ℕ) : ℚ) / 4 := by
    rw [Nat.cast_mul, Nat.cast_sub h]
    push_cast
    ring
  rw [hc, toNat_floor_natCast_div_four]

/-! Section: The coefficient-of-variation comparison -/

/-- For a positive threshold, the rational Boolean `volLtB` decides exactly the
spec's real-number comparison `√variance / mean < c` (0 when the mean is 0). -/
lemma volLtB_iff_spec (l : List ℚ) (c : ℚ) (hc : 0 < c) :
    volLtB l c = true ↔ volatilitySpecLt l c := by
  unfold volLtB volatilitySpecLt
  rcases lt_trichotomy (mean l) 0 with hm | hm | hm
  · rw [if_neg (not_lt.mpr hm.le), if_neg hm.ne, if_neg hm.ne]
    refine iff_of_true rfl ?_
    have h1 : Real.sqrt ((variance l : ℚ) : ℝ) / ((mean l : ℚ) : ℝ) ≤ 0 :=
      div_nonpos_iff.mpr (Or.inl ⟨Real.sqrt_nonneg _, by exact_mod_cast hm.le⟩)
    exact lt_of_le_of_lt h1 (by exact_mod_cast hc)
  · rw [if_neg (by rw [hm]; exact lt_irrefl 0), if_pos hm, if_pos hm, decide_eq_true_eq]
    constructor <;> intro h <;> exact_mod_cast h
  · rw [if_pos hm, if_neg (ne_of_gt hm), decide_eq_true_eq]
    have hmR : (0 : ℝ) < ((mean l : ℚ) : ℝ) := by exact_mod_cast hm
    have hcR : (0 : ℝ) < ((c : ℚ) : ℝ) := by exact_mod_cast hc
    rw [div_lt_iff₀ hmR, Real.sqrt_lt' (mul_pos hcR hmR), mul_pow]
    constructor <;> intro h <;> exact_mod_cast h

/-! Section: An inlier always survives the IQR cut: the element at the Q3 index -/

lemma getD_le_percentile75 (l : List ℚ) (h : 3 ≤ l.length) :
    (sortList l).getD (3 * (l.length - 1) / 4) 0 ≤ percentile l 75 := by
  simp only [percentile]
  rw [length_sortList, idx75 l.length (by omega)]
  have hgen : ((3 * (l.length - 1) / 4 : ℕ) : ℚ) ≤ 75 / 100 * ((l.length : ℚ) - 1) := by
    have h1 : ((3 * (l.length - 1) / 4 : ℕ) : ℚ) ≤ ((3 * (l.length - 1) : ℕ) : ℚ) / ((4 : ℕ) : ℚ) :=
      Nat.cast_div_le
    have h2 : ((3 * (l.length - 1) : ℕ) : ℚ) / ((4 : ℕ) : ℚ) = 75 / 100 * ((l.length : ℚ) - 1) := by
      rw [Nat.cast_mul, Nat.cast_sub (by omega : 1 ≤ l.length)]
      push_cast
      ring
    linarith
  have hdiff : 0 ≤ (sortList l).getD (3 * (l.length - 1) / 4 + 1)
        ((sortList l).getD (3 * (l.length - 1) / 4) 0)
      - (sortList l).getD (3 * (l.length - 1) / 4) 0 := by
    by_cases hlt : 3 * (l.length - 1) / 4 + 1 < (sortList l).length
    · have hmono := sortList_getD_mono l
        (by omega : 3 * (l.length - 1) / 4 ≤ 3 * (l.length - 1) / 4 + 1) hlt
      have hr : (sortList l).getD (3 * (l.length - 1) / 4 + 1)
            ((sortList l).getD (3 * (l.length - 1) / 4) 0)
          = (sortList l).getD (3 * (l.length - 1) / 4 + 1) 0 := by
        rw [List.getD_eq_getElem _ _ hlt, List.getD_eq_getElem _ _ hlt]
      rw [hr]
      linarith
    · rw [List.getD_eq_default _ _ (by omega)]
      linarith
  nlinarith [mul_nonneg (by linarith : (0 : ℚ) ≤ 75 / 100 * ((l.length : ℚ) - 1)
    - ((3 * (l.length - 1) / 4 : ℕ) : ℚ)) hdiff]

lemma percentile25_le_getD (l : List ℚ) (h : 3 ≤ l.length) :
    percentile l 25 ≤ (sortList l).getD (3 * (l.length - 1) / 4) 0 := by
  simp only [percentile]
  rw [length_sortList, idx25 l.length (by omega)]
  have hi3 : 3 * (l.length - 1) / 4 < (sortList l).length := by
    rw [length_sortList]
    omega
  have hsucc : (l.length - 1) / 4 + 1 < (sortList l).length := by
    rw [length_sortList]
    omega
  have hx1b : (sortList l).getD ((l.length - 1) / 4) 0
      ≤ (sortList l).getD ((l.length - 1) / 4 + 1) 0 :=
    sortList_getD_mono l (by omega) hsucc
  have hbx3 : (sortList l).getD ((l.length - 1) / 4 + 1) 0
      ≤ (sortList l).getD (3 * (l.length - 1) / 4) 0 :=
    sortList_getD_mono l (by omega) hi3
  have hrange : (sortList l).getD ((l.length - 1) / 4 + 1)
      ((sortList l).getD ((l.length - 1) / 4) 0)
      = (sortList l).getD ((l.length - 1) / 4 + 1) 0 := by
    rw [List.getD_eq_getElem _ _ hsucc, List.getD_eq_getElem _ _ hsucc]
  have hg1 : 25 / 100 * ((l.length : ℚ) - 1) - (((l.length - 1) / 4 : ℕ) : ℚ) ≤ 1 := by
    have hfl : (⌊(25 : ℚ) / 100 * ((l.length : ℚ) - 1)⌋₊ : ℚ) = (((l.length - 1) / 4 : ℕ) : ℚ) := by
      rw [← Int.floor_toNat, idx25 l.length (by omega)]
    have := Nat.lt_floor_add_one ((25 : ℚ) / 100 * ((l.length : ℚ) - 1))
    rw [hfl] at this
    linarith
  rw [hrange]
  nlinarith [mul_nonneg (by linarith : (0 : ℚ) ≤ 1 - (25 / 100 * ((l.length : ℚ) - 1)
      - (((l.length - 1) / 4 : ℕ) : ℚ)))
    (sub_nonneg.mpr hx1b)]

/-! Section: Claims -/

/-- C10: for every input list with at least 3 elements, the cleaned set produced
by IQR outlier removal is non-empty — the element at the sorted Q3 index always
lies within `[Q1 - 1.5*IQR, Q3 + 1.5*IQR]` — so the "all outliers" error branch
of `fair_value` is unreachable for any input that passes the minimum-length
check. -/
theorem claim_C10 (l : List ℚ) (h : 3 ≤ l.length) : remove_outliers_iqr l ≠ [] := by
  have h1 := percentile25_le_getD l h
  have h3q := getD_le_percentile75 l h
  have hi3 : 3 * (l.length - 1) / 4 < (sortList l).length := by
    rw [length_sortList]
    omega
  have hxl : (sortList l).getD (3 * (l.length - 1) / 4) 0 ∈ l := by
    rw [List.getD_eq_getElem _ _ hi3]
    exact (sortList_perm l).subset (List.getElem_mem hi3)
  have hmem : (sortList l).getD (3 * (l.length - 1) / 4) 0 ∈ remove_outliers_iqr l := by
    unfold remove_outliers_iqr
    rw [List.mem_filter]
    refine ⟨hxl, ?_⟩
    rw [decide_eq_true_eq]
    unfold iqrLower iqrUpper
    constructor <;> linarith
  exact List.ne_nil_of_mem hmem

theorem claim_C10_witness : remove_outliers_iqr [(1 : ℚ), 2, 3] ≠ [] :=
  claim_C10 [(1 : ℚ), 2, 3] (by norm_num)

/-- C2: `fair_value` fails with the distinct "insufficient data" condition iff
the list has fewer than 3 elements, fails with the distinct "all outliers"
condition iff the list has at least 3 elements and IQR removal empties the
cleaned set, otherwise returns a result record; the two failure conditions are
distinguishable. -/
theorem claim_C2 (l : List ℚ) :
    (fair_value l = .error .insufficientData ↔ l.length < 3) ∧
    (fair_value l = .error .allOutliers ↔ 3 ≤ l.length ∧ remove_outliers_iqr l = []) ∧
    (3 ≤ l.length ∧ remove_outliers_iqr l ≠ [] → ∃ r, fair_value l = .ok r) ∧
    FVError.insufficientData ≠ FVError.allOutliers := by
  refine ⟨?_, ?_, ?_, fun heq => FVError.noConfusion heq⟩
  · rw [fair_value_def]
    by_cases h3 : l.length < 3
    · rw [if_pos h3]
      exact iff_of_true rfl h3
    · rw [if_neg h3]
      by_cases h0 : (remove_outliers_iqr l).length = 0
      · rw [if_pos h0]
        exact iff_of_false (fun hh => by injection hh with hh'; exact FVError.noConfusion hh') h3
      · rw [if_neg h0]
        exact iff_of_false (fun hh => Except.noConfusion hh) h3
  · rw [fair_value_def]
    by_cases h3 : l.length < 3
    · rw [if_pos h3]
      exact iff_of_false (fun hh => by injection hh with hh'; exact FVError.noConfusion hh')
        (fun hc => absurd hc.1 (by omega))
    · rw [if_neg h3]
      by_cases h0 : (remove_outliers_iqr l).length = 0
      · rw [if_pos h0]
        exact iff_of_true rfl ⟨by omega, List.length_eq_zero.mp h0⟩
      · rw [if_neg h0]
        exact iff_of_false (fun hh => Except.noConfusion hh)
          (fun hc => h0 (by rw [hc.2]; rfl))
  · rintro ⟨h3, hne⟩
    exact ⟨_, (fair_value_ok_iff l _).mpr ⟨h3, hne, rfl⟩⟩

theorem claim_C2_witness :
    fair_value [(1 : ℚ), 2] = .error .insufficientData ↔ [(1 : ℚ), 2].length < 3 :=
  (claim_C2 [(1 : ℚ), 2]).1

/-- C4: for every non-empty list, outlier removal keeps exactly the
observations `x` with `Q1 - 1.5*IQR ≤ x ≤ Q3 + 1.5*IQR`, inclusive on both
ends, where `Q1`/`Q3` are the linear-interpolation 25th/75th percentiles. -/
theorem claim_C4 (l : List ℚ) (h : l ≠ []) :
    (∀ x : ℚ, x ∈ remove_outliers_iqr l ↔ x ∈ l ∧ iqrLower l ≤ x ∧ x ≤ iqrUpper l) ∧
    iqrLower l = percentile l 25 - 3 / 2 * (percentile l 75 - percentile l 25) ∧
    iqrUpper l = percentile l 75 + 3 / 2 * (percentile l 75 - percentile l 25) := by
  refine ⟨fun x => ?_, rfl, rfl⟩
  unfold remove_outliers_iqr
  rw [List.mem_filter, decide_eq_true_eq]

theorem claim_C4_witness :
    (2 : ℚ) ∈ remove_outliers_iqr [(1 : ℚ), 2, 3] ↔
      (2 : ℚ) ∈ [(1 : ℚ), 2, 3] ∧ iqrLower [(1 : ℚ), 2, 3] ≤ 2
        ∧ (2 : ℚ) ≤ iqrUpper [(1 : ℚ), 2, 3] :=
  (claim_C4 [(1 : ℚ), 2, 3] (by simp)).1 2

/-- C5: the trimmed mean uses `trim_count = ⌊n * 0.10⌋`; when `n ≤ 2*trim_count`
it is the arithmetic mean of the whole cleaned set, otherwise the mean of the
sorted set with the first and last `trim_count` elements discarded; for `n = 3`
the trim count is 0 and the trimmed mean is the plain arithmetic mean. -/
theorem claim_C5 (l : List ℚ) (h : l ≠ []) :
    (⌊(l.length : ℚ) * (1 / 10)⌋).toNat = l.length / 10 ∧
    (l.length ≤ 2 * (l.length / 10) → trimmed_mean l = mean l) ∧
    (2 * (l.length / 10) < l.length →
      trimmed_mean l
        = mean (((sortList l).drop (l.length / 10)).take (l.length - 2 * (l.length / 10)))) ∧
    (l.length = 3 → trimmed_mean l = mean l) := by
  refine ⟨floor_tenth l.length, ?_, ?_, ?_⟩
  · intro hle
    simp only [trimmed_mean]
    rw [length_sortList, floor_tenth, if_pos hle]
    exact mean_sortList l
  · intro hgt
    simp only [trimmed_mean]
    rw [length_sortList, floor_tenth, if_neg (by omega)]
  · intro h3
    simp only [trimmed_mean]
    rw [length_sortList, floor_tenth, h3]
    rw [if_neg (by omega : ¬(3 ≤ 2 * (3 / 10)))]
    rw [show (3 : ℕ) / 10 = 0 from rfl, List.drop_zero,
      show (3 : ℕ) - 2 * 0 = 3 from rfl]
    rw [show (3 : ℕ) = (sortList l).length by rw [length_sortList, h3], List.take_length]
    exact mean_sortList l

theorem claim_C5_witness : trimmed_mean [(1 : ℚ), 2, 3] = mean [(1 : ℚ), 2, 3] :=
  (claim_C5 [(1 : ℚ), 2, 3] (by simp)).2.2.2 rfl

/-- C3: the confidence label is computed from
`outlier_ratio = 1 - used/total` and `volatility = stddev(original)/mean(original)`
(0 when the mean is 0), first matching rule winning: HIGH needs
`used ≥ 10`, `volatility < 0.15`, `outlier_ratio < 0.20`; else MEDIUM needs
`used ≥ 5`, `volatility < 0.25`; else LOW. -/
theorem claim_C3 (l : List ℚ) (u : ℕ) (h : l ≠ []) :
    (confidence_score l u = "HIGH" ↔
      10 ≤ u ∧ volatilitySpecLt l (3 / 20) ∧ 1 - (u : ℚ) / (l.length : ℚ) < 1 / 5) ∧
    (confidence_score l u = "MEDIUM" ↔
      ¬(10 ≤ u ∧ volatilitySpecLt l (3 / 20) ∧ 1 - (u : ℚ) / (l.length : ℚ) < 1 / 5) ∧
      (5 ≤ u ∧ volatilitySpecLt l (1 / 4))) ∧
    (confidence_score l u = "LOW" ↔
      ¬(10 ≤ u ∧ volatilitySpecLt l (3 / 20) ∧ 1 - (u : ℚ) / (l.length : ℚ) < 1 / 5) ∧
      ¬(5 ≤ u ∧ volatilitySpecLt l (1 / 4))) := by
  have e15 := volLtB_iff_spec l (3 / 20) (by norm_num)
  have e25 := volLtB_iff_spec l (1 / 4) (by norm_num)
  have hHiff : (10 ≤ u ∧ volatilitySpecLt l (3 / 20)
        ∧ 1 - (u : ℚ) / (l.length : ℚ) < 1 / 5)
      ↔ (10 ≤ u ∧ volLtB l (3 / 20) = true
        ∧ 1 - (u : ℚ) / (l.length : ℚ) < 1 / 5) := by
    rw [e15]
  have hMiff : (5 ≤ u ∧ volatilitySpecLt l (1 / 4))
      ↔ (5 ≤ u ∧ volLtB l (1 / 4) = true) := by
    rw [e25]
  unfold confidence_score
  by_cases hH : 10 ≤ u ∧ volLtB l (3 / 20) = true ∧ 1 - (u : ℚ) / (l.length : ℚ) < 1 / 5
  · rw [if_pos hH]
    exact ⟨iff_of_true rfl (hHiff.mpr hH),
      iff_of_false (by decide) (fun hc => hc.1 (hHiff.mpr hH)),
      iff_of_false (by decide) (fun hc => hc.1 (hHiff.mpr hH))⟩
  · rw [if_neg hH]
    by_cases hM : 5 ≤ u ∧ volLtB l (1 / 4) = true
    · rw [if_pos hM]
      exact ⟨iff_of_false (by decide) (fun hs => hH (hHiff.mp hs)),
        iff_of_true rfl ⟨fun hs => hH (hHiff.mp hs), hMiff.mpr hM⟩,
        iff_of_false (by decide) (fun hc => hc.2 (hMiff.mpr hM))⟩
    · rw [if_neg hM]
      exact ⟨iff_of_false (by decide) (fun hs => hH (hHiff.mp hs)),
        iff_of_false (by decide) (fun hc => hM (hMiff.mp hc.2)),
        iff_of_true rfl ⟨fun hs => hH (hHiff.mp hs), fun hs => hM (hMiff.mp hs)⟩⟩

theorem claim_C3_witness :
    confidence_score [(1 : ℚ), 2, 3] 5 = "HIGH" ↔
      10 ≤ 5 ∧ volatilitySpecLt [(1 : ℚ), 2, 3] (3 / 20)
        ∧ 1 - ((5 : ℕ) : ℚ) / (([(1 : ℚ), 2, 3] : List ℚ).length : ℚ) < 1 / 5 :=
  (claim_C3 [(1 : ℚ), 2, 3] 5 (by simp)).1

/-! Section: Permutation invariance -/

lemma percentile_eq_of_perm {l l' : List ℚ} (h : l.Perm l') (p : ℚ) :
    percentile l p = percentile l' p := by
  unfold percentile
  rw [sortList_eq_of_perm h]

lemma iqrLower_eq_of_perm {l l' : List ℚ} (h : l.Perm l') : iqrLower l = iqrLower l' := by
  unfold iqrLower
  rw [percentile_eq_of_perm h 25, percentile_eq_of_perm h 75]

lemma iqrUpper_eq_of_perm {l l' : List ℚ} (h : l.Perm l') : iqrUpper l = iqrUpper l' := by
  unfold iqrUpper
  rw [percentile_eq_of_perm h 25, percentile_eq_of_perm h 75]

lemma remove_outliers_iqr_perm {l l' : List ℚ} (h : l.Perm l') :
    (remove_outliers_iqr l).Perm (remove_outliers_iqr l') := by
  unfold remove_outliers_iqr
  rw [iqrLower_eq_of_perm h, iqrUpper_eq_of_perm h]
  exact h.filter _

lemma medianQ_eq_of_perm {l l' : List ℚ} (h : l.Perm l') : medianQ l = medianQ l' := by
  unfold medianQ
  rw [sortList_eq_of_perm h]

lemma trimmed_mean_eq_of_perm {l l' : List ℚ} (h : l.Perm l') :
    trimmed_mean l = trimmed_mean l' := by
  unfold trimmed_mean
  rw [sortList_eq_of_perm h]

lemma confidence_score_eq_of_perm {l l' : List ℚ} (h : l.Perm l') (u : ℕ) :
    confidence_score l u = confidence_score l' u := by
  unfold confidence_score volLtB
  rw [mean_eq_of_perm h, variance_eq_of_perm h, h.length_eq]

/-- C7: `fair_value` is permutation-invariant (and, being a pure function,
deterministic): two inputs that are permutations of each other produce the
same outcome, success record or failure condition alike. -/
theorem claim_C7 (l l' : List ℚ) (h : l.Perm l') : fair_value l = fair_value l' := by
  have hc := remove_outliers_iqr_perm h
  rw [fair_value_def, fair_value_def, h.length_eq, hc.length_eq,
    medianQ_eq_of_perm hc, trimmed_mean_eq_of_perm hc, confidence_score_eq_of_perm h]

theorem claim_C7_witness : fair_value [(1 : ℚ), 2, 3] = fair_value [(1 : ℚ), 3, 2] :=
  claim_C7 _ _ (List.Perm.cons 1 (List.Perm.swap 3 2 []))

/-! Section: Constant lists pass through unchanged -/

lemma sortList_replicate (n : ℕ) (v : ℚ) :
    sortList (List.replicate n v) = List.replicate n v := by
  have hperm := sortList_perm (List.replicate n v)
  have hlen : (sortList (List.replicate n v)).length = n := by
    rw [length_sortList, List.length_replicate]
  nth_rewrite 2 [← hlen]
  exact List.eq_replicate_length.mpr fun b hb => List.eq_of_mem_replicate (hperm.subset hb)

lemma percentile25_replicate {n : ℕ} (hn : 1 ≤ n) (v : ℚ) :
    percentile (List.replicate n v) 25 = v := by
  simp only [percentile]
  rw [sortList_replicate, List.length_replicate, idx25 n hn]
  rw [getD_replicate (by omega : (n - 1) / 4 < n)]
  by_cases h2 : (n - 1) / 4 + 1 < n
  · rw [getD_replicate h2]
    ring
  · rw [List.getD_eq_default _ _ (by rw [List.length_replicate]; omega)]
    ring

lemma percentile75_replicate {n : ℕ} (hn : 1 ≤ n) (v : ℚ) :
    percentile (List.replicate n v) 75 = v := by
  simp only [percentile]
  rw [sortList_replicate, List.length_replicate, idx75 n hn]
  rw [getD_replicate (by omega : 3 * (n - 1) / 4 < n)]
  by_cases h2 : 3 * (n - 1) / 4 + 1 < n
  · rw [getD_replicate h2]
    ring
  · rw [List.getD_eq_default _ _ (by rw [List.length_replicate]; omega)]
    ring

lemma remove_outliers_iqr_replicate {n : ℕ} (hn : 1 ≤ n) (v : ℚ) :
    remove_outliers_iqr (List.replicate n v) = List.replicate n v := by
  unfold remove_outliers_iqr
  apply List.filter_eq_self.mpr
  intro a ha
  rw [List.eq_of_mem_replicate ha, decide_eq_true_eq]
  unfold iqrLower iqrUpper
  rw [percentile25_replicate hn, percentile75_replicate hn]
  constructor <;> linarith

lemma medianQ_replicate {n : ℕ} (hn : 1 ≤ n) (v : ℚ) :
    medianQ (List.replicate n v) = v := by
  simp only [medianQ]
  rw [sortList_replicate, List.length_replicate]
  by_cases hpar : n % 2 = 1
  · rw [if_pos hpar, getD_replicate (by omega : n / 2 < n)]
  · rw [if_neg hpar, getD_replicate (by omega : n / 2 - 1 < n),
      getD_replicate (by omega : n / 2 < n)]
    ring

lemma trimmed_mean_replicate {n : ℕ} (hn : 1 ≤ n) (v : ℚ) :
    trimmed_mean (List.replicate n v) = v := by
  simp only [trimmed_mean]
  rw [sortList_replicate, List.length_replicate, floor_tenth]
  by_cases hc : n ≤ 2 * (n / 10)
  · rw [if_pos hc]
    exact mean_replicate (by omega) v
  · rw [if_neg hc, List.drop_replicate, List.take_replicate]
    rw [show min (n - 2 * (n / 10)) (n - n / 10) = n - 2 * (n / 10) by omega]
    exact mean_replicate (by omega) v

/-- C8: on a constant list of length at least 3, no observation is removed
(`data_points_used` equals the input length) and median, trimmed mean and
fair value all equal the constant, rounded to 2 decimal places. -/
theorem claim_C8 (v : ℚ) (n : ℕ) (h : 3 ≤ n) :
    fair_value (List.replicate n v) = .ok
      { fair_value := round2 v
        median := round2 v
        trimmed_mean := round2 v
        data_points_used := n
        confidence := confidence_score (List.replicate n v) n } := by
  have hn1 : 1 ≤ n := by omega
  rw [fair_value_def, remove_outliers_iqr_replicate hn1, List.length_replicate,
    if_neg (by omega), if_neg (by omega), medianQ_replicate hn1,
    trimmed_mean_replicate hn1, show (3 : ℚ) / 5 * v + 2 / 5 * v = v by ring]

theorem claim_C8_witness :
    fair_value (List.replicate 4 (100 : ℚ)) = .ok
      { fair_value := round2 100
        median := round2 100
        trimmed_mean := round2 100
        data_points_used := 4
        confidence := confidence_score (List.replicate 4 (100 : ℚ)) 4 } :=
  claim_C8 100 4 (by norm_num)

/-! Section: The sample input, computed -/

lemma sample_cleaned : remove_outliers_iqr samplePrices = sampleCleaned := by
  norm_num [remove_outliers_iqr, iqrLower, iqrUpper, percentile, samplePrices, sortList,
    List.insertionSort, List.orderedInsert, List.getD, List.filter, sampleCleaned]
  simp
  norm_num [List.filter]

lemma sampleCleaned_median : medianQ sampleCleaned = 49900 := by
  norm_num [medianQ, sampleCleaned, sortList, List.insertionSort, List.orderedInsert,
    List.getD]

lemma sampleCleaned_trimmed : trimmed_mean sampleCleaned = 49975 := by
  norm_num [trimmed_mean, sampleCleaned, sortList, List.insertionSort, List.orderedInsert,
    mean]

lemma sample_conf : confidence_score samplePrices 8 = "MEDIUM" := by
  norm_num [confidence_score, volLtB, mean, variance, samplePrices]

lemma round2_49930 : round2 49930 = 49930 := by
  norm_num [round2, roundHalfEven]

lemma round2_49900 : round2 49900 = 49900 := by
  norm_num [round2, roundHalfEven]

lemma round2_49975 : round2 49975 = 49975 := by
  norm_num [round2, roundHalfEven]

lemma sample_fair_value :
    fair_value samplePrices = .ok
      { fair_value := 49930, median := 49900, trimmed_mean := 49975,
        data_points_used := 8, confidence := "MEDIUM" } := by
  rw [fair_value_def, sample_cleaned]
  rw [if_neg (by norm_num [samplePrices]), if_neg (by norm_num [sampleCleaned])]
  rw [sampleCleaned_median, sampleCleaned_trimmed]
  rw [show (3 : ℚ) / 5 * 49900 + 2 / 5 * 49975 = 49930 by norm_num]
  rw [show sampleCleaned.length = 8 from rfl]
  rw [sample_conf, round2_49930, round2_49900, round2_49975]

/-- C1: on the sample input, `fair_value` succeeds; the IQR cut removes exactly
`70000` and `30000`, leaving 8 points, so `data_points_used = 8`; the outlier
ratio is exactly 0.2, which fails the strict `< 0.20` bound of the HIGH rule,
and the resulting confidence is MEDIUM. -/
theorem claim_C1 :
    fair_value samplePrices = .ok
      { fair_value := 49930, median := 49900, trimmed_mean := 49975,
        data_points_used := 8, confidence := "MEDIUM" } ∧
    remove_outliers_iqr samplePrices
      = [48000, 50000, 52000, 51000, 49500, 49000, 50500, 49800] ∧
    1 - ((remove_outliers_iqr samplePrices).length : ℚ) / (samplePrices.length : ℚ)
      = 1 / 5 ∧
    ¬(1 - ((remove_outliers_iqr samplePrices).length : ℚ) / (samplePrices.length : ℚ)
      < 1 / 5) := by
  refine ⟨sample_fair_value, ?_, ?_, ?_⟩
  · rw [sample_cleaned]
    rfl
  · rw [sample_cleaned, show sampleCleaned.length = 8 from rfl,
      show samplePrices.length = 10 from rfl]
    norm_num
  · rw [sample_cleaned, show sampleCleaned.length = 8 from rfl,
      show samplePrices.length = 10 from rfl]
    norm_num

/-- C6: on every successful call the fair value before rounding is exactly
`0.6 * median + 0.4 * trimmed_mean` of the cleaned set, with the median using
the standard even/odd-count semantics (average of the two central values of the
sorted data when the count is even). -/
theorem claim_C6 (l : List ℚ) (r : FVResult) (h : fair_value l = .ok r) :
    r.fair_value = round2 (3 / 5 * medianQ (remove_outliers_iqr l)
      + 2 / 5 * trimmed_mean (remove_outliers_iqr l)) ∧
    (∀ m : List ℚ,
      medianQ m = if (sortList m).length % 2 = 0
        then ((sortList m).getD ((sortList m).length / 2 - 1) 0
          + (sortList m).getD ((sortList m).length / 2) 0) / 2
        else (sortList m).getD ((sortList m).length / 2) 0) := by
  obtain ⟨-, -, rfl⟩ := (fair_value_ok_iff l r).mp h
  refine ⟨rfl, fun m => ?_⟩
  simp only [medianQ]
  by_cases hpar : (sortList m).length % 2 = 1
  · rw [if_pos hpar, if_neg (by omega)]
  · rw [if_neg hpar, if_pos (by omega)]

theorem claim_C6_witness :
    (FVResult.mk 49930 49900 49975 8 "MEDIUM").fair_value
      = round2 (3 / 5 * medianQ (remove_outliers_iqr samplePrices)
        + 2 / 5 * trimmed_mean (remove_outliers_iqr samplePrices)) :=
  (claim_C6 samplePrices _ sample_fair_value).1

/-- C9: on every successful call the three numeric result fields are the
unrounded statistics rounded to exactly 2 decimal places (in particular each is
an integer number of hundredths), `data_points_used` is the size of the cleaned
set, which is at most the size of the original, and the confidence label is one
of LOW, MEDIUM, HIGH. -/
theorem claim_C9 (l : List ℚ) (r : FVResult) (h : fair_value l = .ok r) :
    r.fair_value = round2 (3 / 5 * medianQ (remove_outliers_iqr l)
      + 2 / 5 * trimmed_mean (remove_outliers_iqr l)) ∧
    r.median = round2 (medianQ (remove_outliers_iqr l)) ∧
    r.trimmed_mean = round2 (trimmed_mean (remove_outliers_iqr l)) ∧
    (∃ k : ℤ, r.fair_value = (k : ℚ) / 100) ∧
    (∃ k : ℤ, r.median = (k : ℚ) / 100) ∧
    (∃ k : ℤ, r.trimmed_mean = (k : ℚ) / 100) ∧
    r.data_points_used = (remove_outliers_iqr l).length ∧
    (remove_outliers_iqr l).length ≤ l.length ∧
    (r.confidence = "LOW" ∨ r.confidence = "MEDIUM" ∨ r.confidence = "HIGH") := by
  obtain ⟨-, -, rfl⟩ := (fair_value_ok_iff l r).mp h
  refine ⟨rfl, rfl, rfl, ⟨_, rfl⟩, ⟨_, rfl⟩, ⟨_, rfl⟩, rfl,
    by unfold remove_outliers_iqr; exact List.length_filter_le _ _, ?_⟩
  unfold confidence_score
  split
  · exact Or.inr (Or.inr rfl)
  · split
    · exact Or.inr (Or.inl rfl)
    · exact Or.inl rfl

theorem claim_C9_witness :
    (FVResult.mk 49930 49900 49975 8 "MEDIUM").data_points_used
      = (remove_outliers_iqr samplePrices).length :=
  (claim_C9 samplePrices _ sample_fair_value).2.2.2.2.2.2.1

end Pricing
